import Mathlib

/-!
Formal model of the `BSpline` class of the Multivariate Splines library
(`src/bspline.cpp`, `src/generaldefinitions.cpp`, `include/generaldefinitions.h`).

Matrices are modelled as lists of rows over `ℚ` (exact arithmetic standing in
for IEEE doubles).  Member functions of `BSpline` are modelled as functions on
an explicit state record.  The basis-level operations implemented in
`bsplinebasis.cpp` / `bsplinebasis1d.cpp` are not part of the given sources;
where they are needed they are either modelled from the spec (Cox–de Boor
evaluation, support bounds, multiplicity) or taken as explicit step data
(knot-insertion / support-reduction / refinement outcomes), as documented at
each definition.
-/

deriving instance DecidableEq for Except

namespace MultivariateSplines

/-- State owned by the C++ `BSpline` object: the member `numVariables`, the
per-dimension basis degrees and knot vectors (owned by the tensor basis), the
`coefficients` matrix and the `knotaverages` matrix. -/
structure BSpline where
  numVariables : ℕ
  degrees : List ℕ
  knotVectors : List (List ℚ)
  coefficients : List (List ℚ)
  knotaverages : List (List ℚ)
deriving DecidableEq

/-- Degree of dimension `i` (`basis.getBasisDegree(i)`). -/
def degOf (s : BSpline) (i : ℕ) : ℕ := s.degrees.getD i 0

/-- Knot vector of dimension `i` (`basis.getKnotVector(i)`). -/
def knotsOf (s : BSpline) (i : ℕ) : List ℚ := s.knotVectors.getD i []

/-- Column count of a row-list matrix (`.cols()` of an Eigen matrix). -/
def matCols (m : List (List ℚ)) : ℕ := (m.headD []).length

/-- Inner product of two equally long lists (row times column). -/
def dot (a b : List ℚ) : ℚ := (List.zipWith (fun x y => x * y) a b).sum

/-- Number of basis functions of dimension `i`:
`len(knots) - degree - 1` (spec, data model of the univariate basis). -/
def numBasisFunctions1 (s : BSpline) (i : ℕ) : ℕ :=
  (knotsOf s i).length - (degOf s i + 1)

/-- Per-dimension basis-function counts, dimension 0 first. -/
def counts (s : BSpline) : List ℕ :=
  (List.range s.numVariables).map (numBasisFunctions1 s)

/-- Total number of tensor basis functions (`basis.numBasisFunctions()`),
the product of the per-dimension counts. -/
def numBasisFunctions (s : BSpline) : ℕ := (counts s).prod

/-- Digit `i` of the mixed-radix decomposition of the flat tensor index `J`
with radices `L` (dimension 0 the most significant digit, matching the
Kronecker-product ordering the source uses everywhere). -/
def digitAt (L : List ℕ) (i J : ℕ) : ℕ :=
  (J / (L.drop (i + 1)).prod) % L.getD i 1

/-- Division with the convention that a degenerate (zero) denominator yields a
zero contribution instead of raising (spec section 4.1). -/
def safeDiv (a b : ℚ) : ℚ := if b = 0 then 0 else a / b

/-- Modelled from the spec: the Cox–de Boor recursion of `bsplinebasis1d.cpp`
(not under src/).  Degree-0 basis functions are indicator functions of
half-open knot intervals, closed at the left and open at the right, except
that evaluation at the support's upper bound resolves to the last
nondegenerate interval, which is closed at both ends; each higher degree
blends the two lower-degree neighbours with knot-ratio weights, and a
degenerate knot span contributes zero. -/
def B (kn : List ℚ) : ℕ → ℕ → ℚ → ℚ
  | 0, j, t =>
    if (kn.getD j 0 ≤ t ∧ t < kn.getD (j + 1) 0) ∨
        (t = kn.getLastD 0 ∧ kn.getD j 0 < t ∧ t ≤ kn.getD (j + 1) 0)
    then 1 else 0
  | d + 1, j, t =>
    safeDiv (t - kn.getD j 0) (kn.getD (j + d + 1) 0 - kn.getD j 0) * B kn d j t
      + safeDiv (kn.getD (j + d + 2) 0 - t) (kn.getD (j + d + 2) 0 - kn.getD (j + 1) 0)
        * B kn d (j + 1) t

/-- Modelled from the spec: first derivative of a univariate basis function,
`degree/(knot span) * (difference of lower-degree values)` with degenerate
spans contributing zero (spec section 4.1). -/
def dB (kn : List ℚ) : ℕ → ℕ → ℚ → ℚ
  | 0, _, _ => 0
  | d + 1, j, t =>
    (d + 1 : ℚ) * safeDiv 1 (kn.getD (j + d + 1) 0 - kn.getD j 0) * B kn d j t
      - (d + 1 : ℚ) * safeDiv 1 (kn.getD (j + d + 2) 0 - kn.getD (j + 1) 0) * B kn d (j + 1) t

/-- Modelled from the spec: second derivative, the derivative formula applied
to the first derivatives of the lower degree. -/
def d2B (kn : List ℚ) : ℕ → ℕ → ℚ → ℚ
  | 0, _, _ => 0
  | d + 1, j, t =>
    (d + 1 : ℚ) * safeDiv 1 (kn.getD (j + d + 1) 0 - kn.getD j 0) * dB kn d j t
      - (d + 1 : ℚ) * safeDiv 1 (kn.getD (j + d + 2) 0 - kn.getD (j + 1) 0) * dB kn d (j + 1) t

/-- Modelled from the spec: value of tensor basis function `J` at `x`, the
product over the dimensions of the univariate values at the mixed-radix
digits of `J` (spec section 4.3; `basis.eval` is not under src/). -/
def tensorVal (s : BSpline) (J : ℕ) (x : List ℚ) : ℚ :=
  ∏ i in Finset.range s.numVariables,
    B (knotsOf s i) (degOf s i) (digitAt (counts s) i J) (x.getD i 0)

/-- Modelled from the spec: tensor basis derivative in direction `d` — the
tensor product with the derivative vector in dimension `d` and plain values
elsewhere (spec section 4.3). -/
def tensorValD (s : BSpline) (d J : ℕ) (x : List ℚ) : ℚ :=
  ∏ i in Finset.range s.numVariables,
    if i = d then dB (knotsOf s i) (degOf s i) (digitAt (counts s) i J) (x.getD i 0)
    else B (knotsOf s i) (degOf s i) (digitAt (counts s) i J) (x.getD i 0)

/-- Modelled from the spec: tensor basis second derivative for the dimension
pair `(r, c)` — second derivative on the diagonal, a product of two first
derivatives off it (spec section 4.3). -/
def tensorValD2 (s : BSpline) (r c J : ℕ) (x : List ℚ) : ℚ :=
  ∏ i in Finset.range s.numVariables,
    if i = r ∧ i = c then d2B (knotsOf s i) (degOf s i) (digitAt (counts s) i J) (x.getD i 0)
    else if i = r ∨ i = c then dB (knotsOf s i) (degOf s i) (digitAt (counts s) i J) (x.getD i 0)
    else B (knotsOf s i) (degOf s i) (digitAt (counts s) i J) (x.getD i 0)

/-- Modelled from the spec: `basis.insideSupport(x)` (not under src/) — the
point lies, per dimension, within `[lowerBound, upperBound]` of that
dimension's basis, the ends of its knot vector. -/
def insideSupport (s : BSpline) (x : List ℚ) : Prop :=
  ∀ i, i < s.numVariables →
    (knotsOf s i).headD 0 ≤ x.getD i 0 ∧ x.getD i 0 ≤ (knotsOf s i).getLastD 0

instance (s : BSpline) (x : List ℚ) : Decidable (insideSupport s x) := by
  unfold insideSupport; exact Nat.decidableBallLT _ _

/-- Error raised by the evaluation members (`BSpline::eval`,
`evalJacobian`, `evalHessian`): evaluation at a point outside the domain. -/
inductive EvalErr
  | domainError
deriving DecidableEq

/-- The inner product `coefficients · tensorBasisValues(x)`
(`y = coefficients*tensorvalues; return y(0)`). -/
def evalValue (s : BSpline) (x : List ℚ) : ℚ :=
  ∑ J in Finset.range (numBasisFunctions s),
    (s.coefficients.headD []).getD J 0 * tensorVal s J x

/-- `BSpline::eval` (src/src/bspline.cpp:91-101): throws a domain error when
the point is outside the support box, otherwise returns
`coefficients · tensorBasisValues(x)`. -/
def eval (s : BSpline) (x : List ℚ) : Except EvalErr ℚ :=
  if insideSupport s x then .ok (evalValue s x) else .error .domainError

/-- `BSpline::evalJacobian` (src/src/bspline.cpp:108-130), the 1×n Jacobian
row; the basis-level Jacobian is modelled from the spec (section 4.3). -/
def evalJacobian (s : BSpline) (x : List ℚ) : Except EvalErr (List ℚ) :=
  if insideSupport s x then
    .ok ((List.range s.numVariables).map fun d =>
      ∑ J in Finset.range (numBasisFunctions s),
        (s.coefficients.headD []).getD J 0 * tensorValD s d J x)
  else .error .domainError

/-- `BSpline::evalHessian` (src/src/bspline.cpp:137-152), the n×n Hessian;
the basis-level Hessian is modelled from the spec (section 4.3). -/
def evalHessian (s : BSpline) (x : List ℚ) : Except EvalErr (List (List ℚ)) :=
  if insideSupport s x then
    .ok ((List.range s.numVariables).map fun r =>
      (List.range s.numVariables).map fun c =>
        ∑ J in Finset.range (numBasisFunctions s),
          (s.coefficients.headD []).getD J 0 * tensorValD2 s r c J x)
  else .error .domainError

/-- `BSpline::checkControlPoints` (src/src/bspline.cpp:191-197): the asserted
control-point invariant — `coefficients.cols() == knotaverages.cols()`,
`knotaverages.rows() == numVariables`, `coefficients.rows() == 1`. -/
def checkControlPoints (s : BSpline) : Prop :=
  matCols s.coefficients = matCols s.knotaverages ∧
    s.knotaverages.length = s.numVariables ∧ s.coefficients.length = 1

instance (s : BSpline) : Decidable (checkControlPoints s) := by
  unfold checkControlPoints; infer_instance

/-- Result of a control-point mutating member: the returned success flag, the
state after the call, and whether the member invoked `checkControlPoints`
(the source-level invariant check, which can abort in a debug build). -/
structure OpResult where
  ok : Bool
  state : BSpline
  checked : Bool
deriving DecidableEq

/-- `BSpline::setControlPoints` (src/src/bspline.cpp:180-189): splits the
`(numVariables+1) × nc` matrix into `knotaverages` (first rows) and
`coefficients` (last row) and invokes `checkControlPoints`. -/
def setControlPoints (s : BSpline) (cp : List (List ℚ)) : OpResult :=
  ⟨true,
   { s with knotaverages := cp.take s.numVariables, coefficients := cp.drop s.numVariables },
   true⟩

/-- `basis.getKnotMultiplicity(dim, tau)` (not under src/): modelled from the
spec glossary — the number of times the value repeats in the knot vector. -/
def knotMultiplicity (s : BSpline) (dim : ℕ) (tau : ℚ) : ℕ :=
  (knotsOf s dim).count tau

/-- Outcome of the basis-level `basis.insertKnots(A, tau, dim, mult)` call
(`bsplinebasis.cpp`, not under src/): on success, the mutated per-dimension
knot vectors together with the full-tensor-space knot-insertion matrix `A`
(`numNewBasisFns × numOldBasisFns`, rows as lists).  It is supplied as step
data, since its implementation is outside the given sources. -/
def BasisInsertFn : Type :=
  BSpline → ℚ → ℕ → ℕ → Option (List (List ℚ) × List (List ℚ))

/-- Outcome of `basis.reduceSupport(lb, ub, A)` (not under src/): the trimmed
knot vectors and the restriction matrix `A` (`numOld × numNew`). -/
def ReduceSupportFn : Type :=
  BSpline → List ℚ → List ℚ → Option (List (List ℚ) × List (List ℚ))

/-- Outcome of `basis.refineKnots(A)` (not under src/): the refined knot
vectors and the consolidated insertion matrix. -/
def RefineFn : Type := BSpline → Option (List (List ℚ) × List (List ℚ))

/-- `M * A.transpose()` for a row-list matrix `M` and insertion matrix `A`:
entry `(r, i)` is the inner product of row `r` of `M` with row `i` of `A`. -/
def mulByTranspose (M A : List (List ℚ)) : List (List ℚ) :=
  M.map fun row => A.map fun arow => dot row arow

/-- `M * A` for row-list matrices (used by support reduction). -/
def mulMat (M A : List (List ℚ)) : List (List ℚ) :=
  M.map fun row => (List.range (matCols A)).map fun c => dot row (A.map fun r => r.getD c 0)

/-- `BSpline::insertKnots` (src/src/bspline.cpp:419-436): rejects the
insertion when the resulting multiplicity would exceed `degree+1`; otherwise
runs the basis-level insertion and right-multiplies `coefficients` and
`knotaverages` by the transpose of the insertion matrix.  It does not invoke
`checkControlPoints`. -/
def insertKnots (bi : BasisInsertFn) (s : BSpline) (tau : ℚ) (dim mult : ℕ) : OpResult :=
  if degOf s dim + 1 < knotMultiplicity s dim tau + mult then ⟨false, s, false⟩
  else
    match bi s tau dim mult with
    | none => ⟨false, s, false⟩
    | some (nk, A) =>
      ⟨true,
       { s with knotVectors := nk,
                coefficients := mulByTranspose s.coefficients A,
                knotaverages := mulByTranspose s.knotaverages A },
       false⟩

/-- `BSpline::refineKnotVectors` (src/src/bspline.cpp:438-451). -/
def refineKnotVectors (rf : RefineFn) (s : BSpline) : OpResult :=
  match rf s with
  | none => ⟨false, s, false⟩
  | some (nk, A) =>
    ⟨true,
     { s with knotVectors := nk,
              coefficients := mulByTranspose s.coefficients A,
              knotaverages := mulByTranspose s.knotaverages A },
     false⟩

/-- `BSpline::removeUnsupportedBasisFunctions` (src/src/bspline.cpp:499-516):
the basis is reduced first; only then is `coefficients.cols() != A.rows()`
checked, so the failure branch of that check leaves the knot vectors already
mutated.  On success `coefficients` and `knotaverages` are right-multiplied
by the restriction matrix. -/
def removeUnsupportedBasisFunctions (rs : ReduceSupportFn) (s : BSpline)
    (lb ub : List ℚ) : OpResult :=
  match rs s lb ub with
  | none => ⟨false, s, false⟩
  | some (nk, A) =>
    if matCols s.coefficients ≠ A.length then ⟨false, { s with knotVectors := nk }, false⟩
    else
      ⟨true,
       { s with knotVectors := nk,
                coefficients := mulMat s.coefficients A,
                knotaverages := mulMat s.knotaverages A },
       false⟩

/-- Body of the per-dimension loop of `BSpline::regularizeKnotVectors`
(src/src/bspline.cpp:460-494): for each dimension insert the missing lower-
and upper-bound knots in one batch each; a failed insertion aborts the loop
with the state mutated by the insertions already performed. -/
def regularizeGo (bi : BasisInsertFn) (lb ub : List ℚ) : BSpline → List ℕ → Bool × BSpline
  | s, [] => (true, s)
  | s, d :: ds =>
    let tgt : ℤ := (degOf s d : ℤ) + 1
    let nLB : ℤ := tgt - (knotMultiplicity s d (lb.getD d 0) : ℤ)
    let r1 := if 0 < nLB then insertKnots bi s (lb.getD d 0) d nLB.toNat else ⟨true, s, false⟩
    if r1.ok then
      let s1 := r1.state
      let nUB : ℤ := tgt - (knotMultiplicity s1 d (ub.getD d 0) : ℤ)
      let r2 := if 0 < nUB then insertKnots bi s1 (ub.getD d 0) d nUB.toNat else ⟨true, s1, false⟩
      if r2.ok then regularizeGo bi lb ub r2.state ds else (false, r2.state)
    else (false, r1.state)

/-- `BSpline::regularizeKnotVectors` (src/src/bspline.cpp:454-497). -/
def regularizeKnotVectors (bi : BasisInsertFn) (s : BSpline) (lb ub : List ℚ) : Bool × BSpline :=
  if lb.length = s.numVariables ∧ ub.length = s.numVariables then
    regularizeGo bi lb ub s (List.range s.numVariables)
  else (false, s)

/-- Per-dimension support lower bounds (`basis.getSupportLowerBound()`). -/
def supportLB (s : BSpline) : List ℚ :=
  (List.range s.numVariables).map fun i => (knotsOf s i).headD 0

/-- Per-dimension support upper bounds (`basis.getSupportUpperBound()`). -/
def supportUB (s : BSpline) : List ℚ :=
  (List.range s.numVariables).map fun i => (knotsOf s i).getLastD 0

/-- The lower bounds clamped into the requested box
(`if (lb.at(dim) > sl.at(dim)) sl.at(dim) = lb.at(dim)`). -/
def clampLB (s : BSpline) (lb : List ℚ) : List ℚ :=
  (List.range s.numVariables).map fun d => max ((supportLB s).getD d 0) (lb.getD d 0)

/-- The upper bounds clamped into the requested box. -/
def clampUB (s : BSpline) (ub : List ℚ) : List ℚ :=
  (List.range s.numVariables).map fun d => min ((supportUB s).getD d 0) (ub.getD d 0)

/-- The per-dimension empty-domain test of `BSpline::reduceDomain`
(src/src/bspline.cpp:216-221); the loop reads each dimension's entries
before modifying them, so the check-all-then-clamp-all order is equivalent. -/
def emptyDomainCond (s : BSpline) (lb ub : List ℚ) : Prop :=
  ∃ d, d < s.numVariables ∧
    (ub.getD d 0 ≤ lb.getD d 0 ∨ (supportUB s).getD d 0 ≤ lb.getD d 0 ∨
      ub.getD d 0 ≤ (supportLB s).getD d 0)

instance (s : BSpline) (lb ub : List ℚ) : Decidable (emptyDomainCond s lb ub) := by
  unfold emptyDomainCond; infer_instance

/-- The strict-subset test of `BSpline::reduceDomain`
(src/src/bspline.cpp:223-233). -/
def strictSubsetCond (s : BSpline) (lb ub : List ℚ) : Prop :=
  ∃ d, d < s.numVariables ∧
    (ub.getD d 0 < (supportUB s).getD d 0 ∨ (supportLB s).getD d 0 < lb.getD d 0)

instance (s : BSpline) (lb ub : List ℚ) : Decidable (strictSubsetCond s lb ub) := by
  unfold strictSubsetCond; infer_instance

/-- Errors raised (as C++ exceptions) by `BSpline::reduceDomain`. -/
inductive RdErr
  | emptyDomain
  | regularize
  | removeUnsupported
  | refine
deriving DecidableEq

/-- `BSpline::reduceDomain` (src/src/bspline.cpp:204-257): a size mismatch
returns `false` silently; an empty target domain raises; otherwise, when the
target is a strict subset, it optionally regularizes, removes unsupported
basis functions and optionally refines, raising a structural error on the
first failing step with whatever state that step left behind. -/
def reduceDomain (bi : BasisInsertFn) (rs : ReduceSupportFn) (rf : RefineFn)
    (s : BSpline) (lb ub : List ℚ) (doReg doRef : Bool) : Except RdErr Bool × BSpline :=
  if lb.length = s.numVariables ∧ ub.length = s.numVariables then
    if emptyDomainCond s lb ub then (.error .emptyDomain, s)
    else if strictSubsetCond s lb ub then
      let sl := clampLB s lb
      let su := clampUB s ub
      let r1 := if doReg then regularizeKnotVectors bi s sl su else (true, s)
      if r1.1 then
        let r2 := removeUnsupportedBasisFunctions rs r1.2 sl su
        if r2.ok then
          let r3 := if doRef then refineKnotVectors rf r2.state else ⟨true, r2.state, false⟩
          if r3.ok then (.ok true, r3.state) else (.error .refine, r3.state)
        else (.error .removeUnsupported, r2.state)
      else (.error .regularize, r1.2)
    else (.ok true, s)
  else (.ok false, s)

/-- Trace of the solver-selection logic of `BSpline::computeControlPoints`
(src/src/bspline.cpp:330-360): which paths ran and whether the solve error
was raised.  The solver collaborators are black boxes returning success or
failure (spec section 1), so their outcomes are inputs. -/
structure SolveRun where
  attemptedSparse : Bool
  usedDense : Bool
  raised : Bool
deriving DecidableEq

/-- Solver selection of `BSpline::computeControlPoints`
(src/src/bspline.cpp:330-360): below `2^10` equations solve densely;
otherwise attempt the sparse solver (two solves) first and fall back to the
dense path when it fails; raise exactly when the dense path runs and fails.
`sX`/`sY` are the outcomes of the two sparse solves, `dX`/`dY` of the two
dense solves. -/
def computeControlPointsSolve (numEquations : ℕ) (sX sY dX dY : Bool) : SolveRun :=
  if numEquations < 2 ^ 10 then ⟨false, true, !(dX && dY)⟩
  else if sX && sY then ⟨true, false, false⟩
  else ⟨true, true, !(dX && dY)⟩

/-- The fitting constructor's control-point computation
(src/src/bspline.cpp:33-74, 314-364): on solver success it installs the two
transposed solution matrices and the constructor then invokes
`checkControlPoints` (line 73); a failed solve raises.  The solution
matrices `Cx`, `Cy` come from the solver collaborator and are inputs. -/
def fitControlPoints (numEquations : ℕ) (sX sY dX dY : Bool)
    (Cx Cy : List (List ℚ)) (s : BSpline) : Except Unit OpResult :=
  if (computeControlPointsSolve numEquations sX sY dX dY).raised then .error ()
  else .ok ⟨true, { s with coefficients := Cy, knotaverages := Cx }, true⟩

/-- Per-dimension knot averages (`BSpline::computeKnotAverages`,
src/src/bspline.cpp:262-279): entry `j` is the mean of the `degree` knots at
positions `j+1 … j+degree`. -/
def muVec (deg : ℕ) (kn : List ℚ) : List ℚ :=
  (List.range (kn.length - (deg + 1))).map fun j =>
    (∑ t in Finset.range deg, kn.getD (j + 1 + t) 0) / (deg : ℚ)

/-- Kronecker product of two column vectors as lists. -/
def kron (a b : List ℚ) : List ℚ := a.flatMap fun x => b.map fun y => x * y

/-- `BSpline::computeKnotAverages` (src/src/bspline.cpp:260-312): row `i` of
the knot-average matrix is the Kronecker product, over the dimensions in
order, of dimension `i`'s knot-average vector with all-ones vectors for the
other dimensions. -/
def computeKnotAverages (nv : ℕ) (degrees : List ℕ) (knots : List (List ℚ)) :
    List (List ℚ) :=
  (List.range nv).map fun i =>
    List.foldl kron [1] ((List.range nv).map fun j =>
      if i = j then muVec (degrees.getD j 0) (knots.getD j [])
      else List.replicate ((knots.getD j []).length - (degrees.getD j 0 + 1)) 1)

/-- A whitespace-separated numeric token of the text format: either a value
that the C `strto*` routines parse, or a malformed token on which they set
`endptr == str`. -/
inductive Token
  | num (q : ℚ)
  | bad
deriving DecidableEq

/-- A line of the persisted text format: a `#` comment line or a data line
holding its whitespace-separated tokens. -/
inductive Line
  | comment
  | data (toks : List Token)
deriving DecidableEq

/-- Errors of `checked_strtod` / `checked_strtol`
(src/src/generaldefinitions.cpp:21-76) and of the load loop. -/
inductive LoadErr
  | invalidArgument
  | outOfRange
  | matrixOverflow
deriving DecidableEq

/-- The integral part a C `strtol` extracts from a decimal token
(truncation toward zero). -/
def ratTrunc (q : ℚ) : ℤ := q.num / q.den

/-- `checked_strtod` (src/src/generaldefinitions.cpp:21-47): raises
`invalid_argument` when no conversion is performed (malformed token or end of
line), otherwise yields the value. -/
def checked_strtod (t : Option Token) : Except LoadErr ℚ :=
  match t with
  | some (.num q) => .ok q
  | some .bad => .error .invalidArgument
  | none => .error .invalidArgument

/-- `checked_strtol` (src/src/generaldefinitions.cpp:49-76): raises
`invalid_argument` when no conversion is performed and `out_of_range` when
the value falls outside the `int` range `[-2^31, 2^31-1]`. -/
def checked_strtol (t : Option Token) : Except LoadErr ℤ :=
  match t with
  | some (.num q) =>
    if ratTrunc q < -(2 ^ 31) ∨ 2 ^ 31 - 1 < ratTrunc q then .error .outOfRange
    else .ok (ratTrunc q)
  | some .bad => .error .invalidArgument
  | none => .error .invalidArgument

/-- Conversion of a parsed `int` to the `unsigned int` members
(`numVariables`, the entries of `basisDegrees`). -/
def toUInt32 (z : ℤ) : ℕ := (z % 2 ^ 32).toNat

/-- The local variables of the `BSpline::load` read loop
(src/src/bspline.cpp:600-683). -/
structure Machine where
  nv : ℕ
  degrees : List ℕ
  knotVectors : List (List ℚ)
  kvLen : ℤ
  cRows : ℤ
  cCols : ℤ
  rows : List (List ℚ)
  cRowIdx : ℤ
  st : ℕ
deriving DecidableEq

/-- Initial loop state of `BSpline::load`. -/
def initMachine : Machine := ⟨0, [], [], 0, 0, 0, [], 0, 0⟩

/-- Read `k` consecutive values from a line with `checked_strtod`, advancing
`str = nextStr` after each (src/src/bspline.cpp:642-646, 672-676); running
past the end of the line makes `strtod` fail with `invalid_argument`. -/
def readN : ℕ → List Token → Except LoadErr (List ℚ)
  | 0, _ => .ok []
  | k + 1, toks =>
    match checked_strtod toks.head? with
    | .error e => .error e
    | .ok q =>
      match readN k (toks.drop 1) with
      | .error e => .error e
      | .ok qs => .ok (q :: qs)

/-- One non-comment iteration of the `BSpline::load` state machine
(src/src/bspline.cpp:606-683): state 0 reads the variable count, state 1 a
dimension's degree and knot-vector length, state 2 that knot vector, state 3
the coefficient-matrix dimensions, state 4 one coefficient row.  Writing a
row past the declared row count is out of bounds in the source and is
modelled as the error `matrixOverflow`. -/
def stepData (m : Machine) (toks : List Token) : Except LoadErr Machine :=
  if m.st = 0 then
    match checked_strtol toks.head? with
    | .error e => .error e
    | .ok z => .ok { m with nv := toUInt32 z, st := 1 }
  else if m.st = 1 then
    match checked_strtol toks.head? with
    | .error e => .error e
    | .ok d =>
      match checked_strtol (toks.drop 1).head? with
      | .error e => .error e
      | .ok len => .ok { m with degrees := m.degrees ++ [toUInt32 d], kvLen := len, st := 2 }
  else if m.st = 2 then
    match readN m.kvLen.toNat toks with
    | .error e => .error e
    | .ok ks =>
      let kvs := m.knotVectors ++ [ks]
      .ok { m with knotVectors := kvs, st := if m.nv ≤ kvs.length then 3 else 1 }
  else if m.st = 3 then
    match checked_strtol toks.head? with
    | .error e => .error e
    | .ok r =>
      match checked_strtol (toks.drop 1).head? with
      | .error e => .error e
      | .ok c => .ok { m with cRows := r, cCols := c, rows := [], cRowIdx := 0, st := 4 }
  else if m.st = 4 then
    if m.cRows ≤ m.cRowIdx ∧ 0 < m.cCols then .error .matrixOverflow
    else
      match readN m.cCols.toNat toks with
      | .error e => .error e
      | .ok row => .ok { m with rows := m.rows ++ [row], cRowIdx := m.cRowIdx + 1 }
  else .ok m

/-- The `while (getline)` loop of `BSpline::load`: comment lines are skipped,
data lines feed the state machine, and after a state-4 line the loop breaks
once `cRowIdx > cRows`. -/
def loadLines : Machine → List Line → Except LoadErr Machine
  | m, [] => .ok m
  | m, .comment :: rest => loadLines m rest
  | m, .data toks :: rest =>
    match stepData m toks with
    | .error e => .error e
    | .ok m1 => if m.st = 4 ∧ m1.cRows < m1.cRowIdx then .ok m1 else loadLines m1 rest

/-- `BSpline::loadBasis` (src/src/bspline.cpp:700-711) applied to the loop
result: builds the basis from the decoded knot vectors and degrees,
recomputes `knotaverages`, and invokes `checkControlPoints` (the `true`
component). -/
def loadBasisOp (m : Machine) : BSpline × Bool :=
  ({ numVariables := m.nv, degrees := m.degrees, knotVectors := m.knotVectors,
     coefficients := m.rows,
     knotaverages := computeKnotAverages m.nv m.degrees m.knotVectors }, true)

/-- `BSpline::load` (src/src/bspline.cpp:581-698) over the token-level
file model. -/
def load (lines : List Line) : Except LoadErr (BSpline × Bool) :=
  match loadLines initMachine lines with
  | .error e => .error e
  | .ok m => .ok (loadBasisOp m)

/-- The per-dimension block `save` writes: one line with the degree and the
knot-vector length, then one line with the knot values
(src/src/bspline.cpp:542-550). -/
def dimBlock (ds : List (ℕ × List ℚ)) : List Line :=
  ds.flatMap fun p =>
    [Line.data [Token.num (p.1 : ℚ), Token.num (p.2.length : ℚ)],
     Line.data (p.2.map Token.num)]

/-- `BSpline::save` (src/src/bspline.cpp:518-579) over the token-level file
model: two header comment lines, the variable count, the per-dimension
blocks, a comment, the coefficient-matrix dimensions, and the coefficient
rows.  The fixed 17-significant-digit decimal format round-trips every
double exactly, so numeric tokens carry their exact values. -/
def save (s : BSpline) : List Line :=
  [Line.comment, Line.comment, Line.data [Token.num (s.numVariables : ℚ)]]
    ++ dimBlock ((List.range s.numVariables).map fun i => (degOf s i, knotsOf s i))
    ++ [Line.comment,
        Line.data [Token.num (s.coefficients.length : ℚ), Token.num (matCols s.coefficients : ℚ)]]
    ++ s.coefficients.map fun row => Line.data (row.map Token.num)

/-- All tokens of a token-level file, in order. -/
def allTokens (lines : List Line) : List Token :=
  lines.flatMap fun l =>
    match l with
    | .comment => []
    | .data ts => ts

/-- The per-dimension basis-function counts as a function of the raw basis
data (`len(knots_i) - degree_i - 1` for each dimension). -/
def basisCounts (nv : ℕ) (degrees : List ℕ) (knots : List (List ℚ)) : List ℕ :=
  (List.range nv).map fun j => (knots.getD j []).length - (degrees.getD j 0 + 1)

/-- Concrete surface: one variable, degree 0, knot vector `[0, 1]`, the
constant coefficient 2. -/
def exS0 : BSpline := ⟨1, [0], [[0, 1]], [[2]], [[0]]⟩

/-- Concrete surface: one variable, degree 1, clamped knot vector
`[0, 0, 1, 1]`, coefficients `[3, 5]`, knot averages `[0, 1]`. -/
def exS1 : BSpline := ⟨1, [1], [[0, 0, 1, 1]], [[3, 5]], [[0, 1]]⟩

/-- Concrete surface: two variables, bilinear, corner values 1..4. -/
def exS2 : BSpline :=
  ⟨2, [1, 1], [[0, 0, 1, 1], [0, 0, 1, 1]], [[1, 2, 3, 4]],
   [[0, 0, 1, 1], [0, 1, 0, 1]]⟩

/-- Concrete surface with the same basis and coefficients as a degree-1
surface but a knot-average row `[1/4, 1]` that is not the knot averages of
its knot vector (as `setControlPoints` permits). -/
def exS9base : BSpline := ⟨1, [1], [[0, 0, 1, 1]], [[5, 7]], [[0, 1]]⟩

/-- Basis-insertion step data for `exS0`: inserting the knot 1/2 once into
`[0, 1]` at degree 0 gives `[0, 1/2, 1]` with insertion matrix
`[[1], [1]]` (both new indicator functions inherit the old coefficient). -/
def exInsert0 : BasisInsertFn :=
  fun _ _ _ _ => some ([[0, 1/2, 1]], [[1], [1]])

/-- Basis-insertion step data for the degree-1 basis `[0, 0, 1, 1]`:
inserting the knot 1/2 once gives `[0, 0, 1/2, 1, 1]` with the Boehm
insertion matrix `[[1, 0], [1/2, 1/2], [0, 1]]`. -/
def exInsert1 : BasisInsertFn :=
  fun _ _ _ _ => some ([[0, 0, 1/2, 1, 1]], [[1, 0], [1/2, 1/2], [0, 1]])

/-- The full tensor-space insertion matrix for inserting the knot 1/4 twice
into dimension 0 of the bilinear surface `exS2`: the Kronecker product of the
dimension-0 Boehm matrix `[[1,0],[3/4,1/4],[3/4,1/4],[0,1]]` with the 2×2
identity of dimension 1. -/
def exAfull : List (List ℚ) :=
  [[1, 0, 0, 0], [0, 1, 0, 0],
   [3/4, 0, 1/4, 0], [0, 3/4, 0, 1/4],
   [3/4, 0, 1/4, 0], [0, 3/4, 0, 1/4],
   [0, 0, 1, 0], [0, 0, 0, 1]]

/-- Basis-insertion step data that succeeds in dimension 0 (with the genuine
Boehm data `exAfull`) and fails in dimension 1. -/
def exInsertDim0 : BasisInsertFn :=
  fun _ _ d _ =>
    if d = 0 then some ([[0, 0, 1/4, 1/4, 1, 1], [0, 0, 1, 1]], exAfull) else none

/-- Basis-insertion step data that always fails. -/
def exNoInsert : BasisInsertFn := fun _ _ _ _ => none

/-- Support-reduction step data that always fails. -/
def exNoReduce : ReduceSupportFn := fun _ _ _ => none

/-- Refinement step data that always fails. -/
def exNoRefine : RefineFn := fun _ => none

/-! ### Helper lemmas -/

/-- Two states with the same basis data and coefficients evaluate alike:
`eval`, `evalJacobian` and `evalHessian` never read `knotaverages`. -/
theorem eval_ext (s t : BSpline) (h1 : s.numVariables = t.numVariables)
    (h2 : s.degrees = t.degrees) (h3 : s.knotVectors = t.knotVectors)
    (h4 : s.coefficients = t.coefficients) :
    eval s = eval t ∧ evalJacobian s = evalJacobian t ∧ evalHessian s = evalHessian t := by
  cases s; cases t
  dsimp only at h1 h2 h3 h4
  subst h1; subst h2; subst h3; subst h4
  exact ⟨rfl, rfl, rfl⟩

/-- Two states with the same basis data have the same tensor basis values,
support and basis-function count. -/
theorem basis_ext (s t : BSpline) (h1 : s.numVariables = t.numVariables)
    (h2 : s.degrees = t.degrees) (h3 : s.knotVectors = t.knotVectors) :
    tensorVal s = tensorVal t ∧ insideSupport s = insideSupport t ∧
      numBasisFunctions s = numBasisFunctions t := by
  cases s; cases t
  dsimp only at h1 h2 h3
  subst h1; subst h2; subst h3
  exact ⟨rfl, rfl, rfl⟩

/-- The inner product as a `Finset` sum over the common length. -/
theorem dot_eq_sum (n : ℕ) : ∀ (a b : List ℚ), a.length = n → b.length = n →
    dot a b = ∑ k in Finset.range n, a.getD k 0 * b.getD k 0 := by
  induction n with
  | zero =>
    intro a b ha hb
    rw [List.length_eq_zero] at ha hb
    subst ha; subst hb
    simp [dot]
  | succ n ih =>
    intro a b ha hb
    cases a with
    | nil => simp at ha
    | cons a0 a =>
      cases b with
      | nil => simp at hb
      | cons b0 b =>
        simp only [List.length_cons, Nat.succ_inj] at ha hb
        rw [Finset.sum_range_succ']
        simp only [List.getD_cons_succ, List.getD_cons_zero]
        rw [← ih a b ha hb]
        simp [dot, add_comm]

/-- `getD` through a `map` by a function sending the default to zero. -/
theorem getD_map_zero (f : List ℚ → ℚ) (hf : f [] = 0) :
    ∀ (A : List (List ℚ)) (n : ℕ), (A.map f).getD n 0 = f (A.getD n []) := by
  intro A
  induction A with
  | nil => intro n; simp [hf]
  | cons a t ih =>
    intro n
    cases n with
    | zero => simp
    | succ n => simpa only [List.map_cons, List.getD_cons_succ] using ih n

/-- `getD` of a `map` over `List.range`. -/
theorem getD_map_range {α : Type} (f : ℕ → α) (d : α) (nv i : ℕ) (h : i < nv) :
    ((List.range nv).map f).getD i d = f i := by
  rw [List.getD_eq_getElem?_getD]
  rw [List.getElem?_eq_getElem (by simpa using h)]
  simp

/-- A list is the range-indexed map of its `getD` entries. -/
theorem map_getD_range {α : Type} (l : List α) (d : α) :
    (List.range l.length).map (fun i => l.getD i d) = l := by
  apply List.ext_getElem
  · simp
  · intro i h1 h2
    simp only [List.getElem_map, List.getElem_range]
    rw [List.getD_eq_getElem]

/-! ### C1 -/

/-- C1: for every point `x`, `eval(x)` raises a DomainError when some
dimension `i` has `x_i` outside `[lowerBound_i, upperBound_i]` of that
dimension's basis — and then never returns a value — and otherwise returns
the inner product `coefficients · tensorBasisValues(x)`. -/
theorem eval_domain_gate (s : BSpline) (x : List ℚ) (_hx : x.length = s.numVariables) :
    ((∃ i, i < s.numVariables ∧
        (x.getD i 0 < (knotsOf s i).headD 0 ∨ (knotsOf s i).getLastD 0 < x.getD i 0)) →
      eval s x = .error .domainError ∧ ∀ y, eval s x ≠ .ok y) ∧
    ((∀ i, i < s.numVariables →
        (knotsOf s i).headD 0 ≤ x.getD i 0 ∧ x.getD i 0 ≤ (knotsOf s i).getLastD 0) →
      eval s x = .ok (evalValue s x)) := by
  constructor
  · rintro ⟨i, hi, hout⟩
    have hns : ¬ insideSupport s x := by
      intro h
      rcases h i hi with ⟨h1, h2⟩
      rcases hout with h3 | h3 <;> linarith
    rw [eval, if_neg hns]
    exact ⟨rfl, fun y h => by cases h⟩
  · intro h
    have hs : insideSupport s x := h
    rw [eval, if_pos hs]

/-! ### C3 -/

/-- C3: when the existing multiplicity of `tau` plus the requested
multiplicity exceeds `degree+1`, `insertKnots` returns `false` (no
exception) and leaves the knot vectors, coefficients and knot averages
exactly as they were. -/
theorem insertKnots_multiplicity_reject (bi : BasisInsertFn) (s : BSpline) (tau : ℚ)
    (dim mult : ℕ) (h : degOf s dim + 1 < knotMultiplicity s dim tau + mult) :
    insertKnots bi s tau dim mult = ⟨false, s, false⟩ := by
  rw [insertKnots, if_pos h]

/-! ### C10 -/

/-- C10: `reduceDomain` with bound vectors whose lengths differ from the
number of variables returns `false` without raising and without modifying the
state. -/
theorem reduceDomain_size_mismatch (bi : BasisInsertFn) (rs : ReduceSupportFn)
    (rf : RefineFn) (s : BSpline) (lb ub : List ℚ) (doReg doRef : Bool)
    (h : ¬ (lb.length = s.numVariables ∧ ub.length = s.numVariables)) :
    reduceDomain bi rs rf s lb ub doReg doRef = (.ok false, s) := by
  rw [reduceDomain, if_neg h]

/-! ### C5 -/

/-- C5 (amended): below `2^10` equations the sparse path is not attempted and
the system is solved densely; at or above it the sparse factorization is
attempted first and the dense path runs exactly when it fails; the solve
error is raised exactly when the dense path runs and fails — that is, when
the dense solves fail and (if the sparse path was attempted) the sparse
solves failed too. -/
theorem computeControlPoints_solver_policy (ne : ℕ) (sX sY dX dY : Bool) :
    ((computeControlPointsSolve ne sX sY dX dY).attemptedSparse = !decide (ne < 2 ^ 10)) ∧
    ((computeControlPointsSolve ne sX sY dX dY).usedDense =
      (decide (ne < 2 ^ 10) || !(sX && sY))) ∧
    ((computeControlPointsSolve ne sX sY dX dY).raised = true ↔
      (dX && dY) = false ∧ (ne < 2 ^ 10 ∨ (sX && sY) = false)) := by
  by_cases h : ne < 1024 <;> cases sX <;> cases sY <;> cases dX <;> cases dY <;>
    simp [computeControlPointsSolve, show (2 : ℕ) ^ 10 = 1024 from rfl, h]

/-! ### C6 (amended) -/

/-- Row count of `M * Aᵗ`. -/
theorem length_mulByTranspose (M A : List (List ℚ)) :
    (mulByTranspose M A).length = M.length := by
  simp [mulByTranspose]

/-- Column count of `M * Aᵗ` for a nonempty `M`. -/
theorem matCols_mulByTranspose (M A : List (List ℚ)) (h : M ≠ []) :
    matCols (mulByTranspose M A) = A.length := by
  cases M with
  | nil => exact absurd rfl h
  | cons a t => simp [mulByTranspose, matCols]

/-- Row count of `M * A`. -/
theorem length_mulMat (M A : List (List ℚ)) : (mulMat M A).length = M.length := by
  simp [mulMat]

/-- Column count of `M * A` for a nonempty `M`. -/
theorem matCols_mulMat (M A : List (List ℚ)) (h : M ≠ []) :
    matCols (mulMat M A) = matCols A := by
  cases M with
  | nil => exact absurd rfl h
  | cons a t => simp [mulMat, matCols]

/-- C6 (amended): every control-point mutation — knot insertion, refinement,
support reduction, `setControlPoints`, fitting, load — preserves the
invariant that `coefficients` is a 1-row matrix, `knotaverages` has
`numVariables` rows and both have equally many columns; but the explicit
`checkControlPoints` check runs only in `setControlPoints`, the fitting
constructor and `load`/`loadBasis`, not in `insertKnots`,
`refineKnotVectors` or `removeUnsupportedBasisFunctions`. -/
theorem controlPoint_invariant_maintenance :
    (∀ (bi : BasisInsertFn) (s : BSpline) (tau : ℚ) (dim mult : ℕ),
      1 ≤ s.numVariables → checkControlPoints s →
        checkControlPoints (insertKnots bi s tau dim mult).state) ∧
    (∀ (rf : RefineFn) (s : BSpline), 1 ≤ s.numVariables → checkControlPoints s →
        checkControlPoints (refineKnotVectors rf s).state) ∧
    (∀ (rs : ReduceSupportFn) (s : BSpline) (lb ub : List ℚ),
      1 ≤ s.numVariables → checkControlPoints s →
        checkControlPoints (removeUnsupportedBasisFunctions rs s lb ub).state) ∧
    (∀ (s : BSpline) (cp : List (List ℚ)),
      cp.length = s.numVariables + 1 → 1 ≤ s.numVariables →
      (∀ row ∈ cp, row.length = matCols cp) →
        checkControlPoints (setControlPoints s cp).state) ∧
    (∀ (bi : BasisInsertFn) (s : BSpline) (tau : ℚ) (dim mult : ℕ),
      (insertKnots bi s tau dim mult).checked = false) ∧
    (∀ (rf : RefineFn) (s : BSpline), (refineKnotVectors rf s).checked = false) ∧
    (∀ (rs : ReduceSupportFn) (s : BSpline) (lb ub : List ℚ),
      (removeUnsupportedBasisFunctions rs s lb ub).checked = false) ∧
    (∀ (s : BSpline) (cp : List (List ℚ)), (setControlPoints s cp).checked = true) ∧
    (∀ m : Machine, (loadBasisOp m).2 = true) ∧
    (∀ (ne : ℕ) (sX sY dX dY : Bool) (Cx Cy : List (List ℚ)) (s : BSpline) (r : OpResult),
      fitControlPoints ne sX sY dX dY Cx Cy s = .ok r → r.checked = true) := by
  have hupd : ∀ (s : BSpline) (nk A : List (List ℚ)),
      1 ≤ s.numVariables → checkControlPoints s →
      checkControlPoints
        { s with
          knotVectors := nk,
          coefficients := mulByTranspose s.coefficients A,
          knotaverages := mulByTranspose s.knotaverages A } := by
    rintro s nk A hn ⟨_hcols, hka, hc1⟩
    have hcne : s.coefficients ≠ [] := by
      intro h; rw [h] at hc1; simp at hc1
    have hkane : s.knotaverages ≠ [] := by
      intro h; rw [h] at hka; simp at hka; omega
    refine ⟨?_, ?_, ?_⟩
    · show matCols (mulByTranspose s.coefficients A) = matCols (mulByTranspose s.knotaverages A)
      rw [matCols_mulByTranspose _ _ hcne, matCols_mulByTranspose _ _ hkane]
    · show (mulByTranspose s.knotaverages A).length = s.numVariables
      rw [length_mulByTranspose]; exact hka
    · show (mulByTranspose s.coefficients A).length = 1
      rw [length_mulByTranspose]; exact hc1
  refine ⟨?_, ?_, ?_, ?_, ?_, ?_, ?_, ?_, ?_, ?_⟩
  · intro bi s tau dim mult hn hck
    rw [insertKnots]
    split
    · exact hck
    · rcases hbi : bi s tau dim mult with _ | ⟨nk, A⟩
      · exact hck
      · exact hupd s nk A hn hck
  · intro rf s hn hck
    rw [refineKnotVectors]
    rcases hrf : rf s with _ | ⟨nk, A⟩
    · exact hck
    · exact hupd s nk A hn hck
  · intro rs s lb ub hn hck
    obtain ⟨hcols, hka, hc1⟩ := hck
    have hcne : s.coefficients ≠ [] := by
      intro h; rw [h] at hc1; simp at hc1
    have hkane : s.knotaverages ≠ [] := by
      intro h; rw [h] at hka; simp at hka; omega
    rw [removeUnsupportedBasisFunctions]
    rcases hrs : rs s lb ub with _ | ⟨nk, A⟩
    · exact ⟨hcols, hka, hc1⟩
    · dsimp only
      by_cases hA : matCols s.coefficients ≠ A.length
      · rw [if_pos hA]
        exact ⟨hcols, hka, hc1⟩
      · rw [if_neg hA]
        refine ⟨?_, ?_, ?_⟩
        · show matCols (mulMat s.coefficients A) = matCols (mulMat s.knotaverages A)
          rw [matCols_mulMat _ _ hcne, matCols_mulMat _ _ hkane]
        · show (mulMat s.knotaverages A).length = s.numVariables
          rw [length_mulMat]; exact hka
        · show (mulMat s.coefficients A).length = 1
          rw [length_mulMat]; exact hc1
  · intro s cp hlen hn hrows
    have hne : cp ≠ [] := by intro h; rw [h] at hlen; simp at hlen
    refine ⟨?_, ?_, ?_⟩
    · show matCols (cp.drop s.numVariables) = matCols (cp.take s.numVariables)
      have htake : matCols (cp.take s.numVariables) = matCols cp := by
        cases cp with
        | nil => exact absurd rfl hne
        | cons a t =>
          cases hnv : s.numVariables with
          | zero => omega
          | succ k => simp [matCols]
      have hdropne : cp.drop s.numVariables ≠ [] := by
        intro h
        have := congrArg List.length h
        rw [List.length_drop] at this
        simp at this
        omega
      have hdrop : matCols (cp.drop s.numVariables) = matCols cp := by
        have hmem : (cp.drop s.numVariables).headD [] ∈ cp := by
          cases hd : cp.drop s.numVariables with
          | nil => exact absurd hd hdropne
          | cons b u =>
            have : b ∈ cp.drop s.numVariables := by rw [hd]; exact List.mem_cons_self _ _
            simpa [hd] using List.mem_of_mem_drop this
        exact hrows _ hmem
      rw [htake, hdrop]
    · show (cp.take s.numVariables).length = s.numVariables
      rw [List.length_take]; omega
    · show (cp.drop s.numVariables).length = 1
      rw [List.length_drop]; omega
  · intro bi s tau dim mult
    rw [insertKnots]
    split
    · rfl
    · rcases hbi : bi s tau dim mult with _ | ⟨nk, A⟩ <;> rfl
  · intro rf s
    rw [refineKnotVectors]
    rcases hrf : rf s with _ | ⟨nk, A⟩ <;> rfl
  · intro rs s lb ub
    rw [removeUnsupportedBasisFunctions]
    rcases hrs : rs s lb ub with _ | ⟨nk, A⟩
    · rfl
    · dsimp only
      by_cases hA : matCols s.coefficients ≠ A.length
      · rw [if_pos hA]
      · rw [if_neg hA]
  · intro s cp; rfl
  · intro m; rfl
  · intro ne sX sY dX dY Cx Cy s r h
    rw [fitControlPoints] at h
    split at h
    · cases h
    · cases h; rfl

/-! ### C4 (amended) -/

/-- C4 (amended): inside `reduceDomain`, a failing regularization,
support-reduction or refinement step always aborts the whole operation with
the corresponding structural error — but with the state that the failing
step left behind, which may already differ from the pre-attempt state. -/
theorem reduceDomain_failing_step_raises (bi : BasisInsertFn) (rs : ReduceSupportFn)
    (rf : RefineFn) (s : BSpline) (lb ub : List ℚ) (doReg doRef : Bool)
    (hlen : lb.length = s.numVariables ∧ ub.length = s.numVariables)
    (hne : ¬ emptyDomainCond s lb ub) (hstrict : strictSubsetCond s lb ub) :
    ((if doReg then regularizeKnotVectors bi s (clampLB s lb) (clampUB s ub)
        else (true, s)).1 = false →
      reduceDomain bi rs rf s lb ub doReg doRef =
        (.error .regularize,
         (if doReg then regularizeKnotVectors bi s (clampLB s lb) (clampUB s ub)
            else (true, s)).2)) ∧
    (∀ s1, (if doReg then regularizeKnotVectors bi s (clampLB s lb) (clampUB s ub)
        else (true, s)) = (true, s1) →
      (removeUnsupportedBasisFunctions rs s1 (clampLB s lb) (clampUB s ub)).ok = false →
      reduceDomain bi rs rf s lb ub doReg doRef =
        (.error .removeUnsupported,
         (removeUnsupportedBasisFunctions rs s1 (clampLB s lb) (clampUB s ub)).state)) ∧
    (∀ s1, (if doReg then regularizeKnotVectors bi s (clampLB s lb) (clampUB s ub)
        else (true, s)) = (true, s1) →
      (removeUnsupportedBasisFunctions rs s1 (clampLB s lb) (clampUB s ub)).ok = true →
      doRef = true →
      (refineKnotVectors rf
        (removeUnsupportedBasisFunctions rs s1 (clampLB s lb) (clampUB s ub)).state).ok = false →
      reduceDomain bi rs rf s lb ub doReg doRef =
        (.error .refine,
         (refineKnotVectors rf
           (removeUnsupportedBasisFunctions rs s1 (clampLB s lb)
             (clampUB s ub)).state).state)) := by
  refine ⟨?_, ?_, ?_⟩
  · intro h1
    simp only [reduceDomain, if_pos hlen, if_neg hne, if_pos hstrict, h1]
    simp
  · intro s1 h1 h2
    simp only [reduceDomain, if_pos hlen, if_neg hne, if_pos hstrict, h1, h2]
    simp
  · intro s1 h1 h2 h3 h4
    simp only [reduceDomain, if_pos hlen, if_neg hne, if_pos hstrict, h1, h2, h3, h4]
    simp
    exact h4

/-! ### C2 -/

/-- C2: when the basis-level insertion succeeds with an insertion matrix that
reproduces the old basis functions on the new knot vector (the defining
property of a knot-insertion matrix), `insertKnots` succeeds and the
evaluated function is unchanged on the whole domain, because the new
coefficients are the old coefficients right-multiplied by the transpose of
the insertion matrix. -/
theorem insertKnots_preserves_eval (bi : BasisInsertFn) (s : BSpline) (tau : ℚ)
    (dim mult : ℕ) (nk A : List (List ℚ))
    (hbi : bi s tau dim mult = some (nk, A))
    (hguard : ¬ (degOf s dim + 1 < knotMultiplicity s dim tau + mult))
    (hc1 : s.coefficients.length = 1)
    (hclen : (s.coefficients.headD []).length = numBasisFunctions s)
    (hAlen : A.length = numBasisFunctions { s with knotVectors := nk })
    (hArow : ∀ r ∈ A, r.length = numBasisFunctions s)
    (hsupp : insideSupport { s with knotVectors := nk } = insideSupport s)
    (hprop : ∀ x, insideSupport s x → ∀ j, j < numBasisFunctions s →
      tensorVal s j x =
        ∑ i in Finset.range (numBasisFunctions { s with knotVectors := nk }),
          (A.getD i []).getD j 0 * tensorVal { s with knotVectors := nk } i x) :
    (insertKnots bi s tau dim mult).ok = true ∧
    ∀ x, insideSupport s x → eval (insertKnots bi s tau dim mult).state x = eval s x := by
  have hres : insertKnots bi s tau dim mult =
      ⟨true,
       { s with
         knotVectors := nk,
         coefficients := mulByTranspose s.coefficients A,
         knotaverages := mulByTranspose s.knotaverages A },
       false⟩ := by
    rw [insertKnots, if_neg hguard, hbi]
  rw [hres]
  refine ⟨rfl, ?_⟩
  intro x hx
  obtain ⟨hT, hIns, hNum⟩ := basis_ext
    { s with
      knotVectors := nk,
      coefficients := mulByTranspose s.coefficients A,
      knotaverages := mulByTranspose s.knotaverages A }
    { s with knotVectors := nk } rfl rfl rfl
  have hxN : insideSupport
      { s with
        knotVectors := nk,
        coefficients := mulByTranspose s.coefficients A,
        knotaverages := mulByTranspose s.knotaverages A } x := by
    rw [hIns, hsupp]; exact hx
  show eval _ x = eval s x
  rw [eval, if_pos hxN, eval, if_pos hx]
  congr 1
  obtain ⟨c0, hc0⟩ := List.length_eq_one.mp hc1
  have hc0len : c0.length = numBasisFunctions s := by
    rw [← hclen, hc0]; rfl
  have hcoefN : (mulByTranspose s.coefficients A).headD [] =
      A.map fun arow => dot c0 arow := by
    rw [hc0]; rfl
  unfold evalValue
  rw [hNum, hT]
  simp only [hcoefN]
  calc
    ∑ J in Finset.range (numBasisFunctions { s with knotVectors := nk }),
        ((A.map fun arow => dot c0 arow).getD J 0) * tensorVal { s with knotVectors := nk } J x
      = ∑ J in Finset.range (numBasisFunctions { s with knotVectors := nk }),
          (∑ j in Finset.range (numBasisFunctions s),
            c0.getD j 0 * (A.getD J []).getD j 0) * tensorVal { s with knotVectors := nk } J x := by
        apply Finset.sum_congr rfl
        intro J hJ
        rw [getD_map_zero (fun arow => dot c0 arow) (by simp [dot]) A J]
        rw [dot_eq_sum (numBasisFunctions s) c0 (A.getD J []) hc0len]
        apply hArow
        have hJA : J < A.length := by rw [hAlen]; exact Finset.mem_range.mp hJ
        rw [List.getD_eq_getElem A [] hJA]
        exact List.getElem_mem hJA
    _ = ∑ J in Finset.range (numBasisFunctions { s with knotVectors := nk }),
          ∑ j in Finset.range (numBasisFunctions s),
            c0.getD j 0 * (A.getD J []).getD j 0 * tensorVal { s with knotVectors := nk } J x := by
        apply Finset.sum_congr rfl
        intro J _
        rw [Finset.sum_mul]
    _ = ∑ j in Finset.range (numBasisFunctions s),
          ∑ J in Finset.range (numBasisFunctions { s with knotVectors := nk }),
            c0.getD j 0 * (A.getD J []).getD j 0 * tensorVal { s with knotVectors := nk } J x :=
        Finset.sum_comm
    _ = ∑ j in Finset.range (numBasisFunctions s),
          c0.getD j 0 * ∑ J in Finset.range (numBasisFunctions { s with knotVectors := nk }),
            (A.getD J []).getD j 0 * tensorVal { s with knotVectors := nk } J x := by
        apply Finset.sum_congr rfl
        intro j _
        rw [Finset.mul_sum]
        apply Finset.sum_congr rfl
        intro J _
        ring
    _ = ∑ j in Finset.range (numBasisFunctions s), c0.getD j 0 * tensorVal s j x := by
        apply Finset.sum_congr rfl
        intro j hj
        rw [← hprop x hx j (Finset.mem_range.mp hj)]
    _ = evalValue s x := by
        rw [evalValue, hc0]
        rfl

/-- The degree-0 indicator on `[0, 1]` decomposes over the refined knot
vector `[0, 1/2, 1]` with unit weights: the defining insertion-matrix
property at the witness instance. -/
theorem hat_decomp0 (y : ℚ) (h0 : 0 ≤ y) (h1 : y ≤ 1) :
    B [0, 1] 0 0 y = B [0, 1/2, 1] 0 0 y + B [0, 1/2, 1] 0 1 y := by
  simp only [B, List.getD, List.getLastD]
  norm_num
  rcases lt_or_le y (1/2) with hy | hy
  · rw [if_pos, if_pos, if_neg]
    · norm_num
    · rintro (⟨ha, hb⟩ | ⟨ha, hb, hc⟩) <;> linarith
    · exact Or.inl ⟨h0, by linarith⟩
    · rcases lt_or_eq_of_le h1 with h | h
      · exact Or.inl ⟨h0, h⟩
      · exact Or.inr ⟨h.symm ▸ rfl, by linarith, by linarith⟩
  · rcases lt_or_eq_of_le h1 with h | h
    · rw [if_pos (Or.inl ⟨h0, h⟩), if_neg, if_pos (Or.inl ⟨hy, h⟩)]
      · norm_num
      · rintro (⟨ha, hb⟩ | ⟨ha, hb, hc⟩) <;> linarith
    · rw [if_pos, if_neg, if_pos]
      · norm_num
      · exact Or.inr ⟨h, by linarith, by linarith⟩
      · rintro (⟨ha, hb⟩ | ⟨ha, hb, hc⟩) <;> linarith
      · exact Or.inr ⟨h, by linarith, le_of_eq h⟩

/-! ### C9 (amended) -/

/-- Length of the Kronecker product of two column vectors. -/
theorem kron_length (a b : List ℚ) : (kron a b).length = a.length * b.length := by
  induction a with
  | nil => simp [kron]
  | cons x t ih =>
    show (List.map (fun y => x * y) b ++ kron t b).length = (x :: t).length * b.length
    rw [List.length_append, List.length_map, ih, List.length_cons]
    ring

/-- `getD` through scaling a vector. -/
theorem getD_map_mul (x : ℚ) (b : List ℚ) (n : ℕ) :
    (b.map fun y => x * y).getD n 0 = x * b.getD n 0 := by
  induction b generalizing n with
  | nil => simp
  | cons y t ih =>
    cases n with
    | zero => simp
    | succ n => simpa using ih n

/-- Entry of a Kronecker product: quotient digit indexes the left factor,
remainder digit the right. -/
theorem kron_getD (a b : List ℚ) : ∀ K : ℕ, K < a.length * b.length →
    (kron a b).getD K 0 = a.getD (K / b.length) 0 * b.getD (K % b.length) 0 := by
  induction a with
  | nil => intro K hK; simp at hK
  | cons x t ih =>
    intro K hK
    have hb : 0 < b.length := by
      rcases Nat.eq_zero_or_pos b.length with h | h
      · rw [h, Nat.mul_zero] at hK; exact absurd hK (Nat.not_lt_zero K)
      · exact h
    show (List.map (fun y => x * y) b ++ kron t b).getD K 0 = _
    by_cases hKb : K < b.length
    · rw [List.getD_append _ _ _ _ (by simpa using hKb)]
      rw [getD_map_mul, Nat.div_eq_of_lt hKb, Nat.mod_eq_of_lt hKb, List.getD_cons_zero]
    · push_neg at hKb
      rw [List.getD_append_right _ _ _ _ (by simpa using hKb)]
      have hK2 : K - b.length < t.length * b.length := by
        rw [List.length_cons, Nat.succ_mul] at hK
        omega
      rw [List.length_map, ih (K - b.length) hK2]
      have hdiv : K / b.length = (K - b.length) / b.length + 1 := by
        conv_lhs => rw [show K = (K - b.length) + b.length from by omega]
        rw [Nat.add_div_right _ hb]
      have hmod : K % b.length = (K - b.length) % b.length := by
        conv_lhs => rw [show K = (K - b.length) + b.length from by omega]
        rw [Nat.add_mod_right]
      rw [hdiv, hmod, List.getD_cons_succ]

/-- Length of the left fold of Kronecker products, as the source's
`computeKnotAverages` builds it. -/
theorem foldl_kron_length (vs : List (List ℚ)) :
    (List.foldl kron [1] vs).length = (vs.map List.length).prod := by
  induction vs using List.reverseRecOn with
  | nil => simp
  | append_singleton l v ih =>
    rw [List.foldl_append, List.foldl_cons, List.foldl_nil, kron_length, ih,
      List.map_append, List.prod_append]
    simp

/-- Entry `J` of the folded Kronecker product is the product over the factors
of the entries at the mixed-radix digits of `J` (first factor most
significant). -/
theorem foldl_kron_getD (vs : List (List ℚ)) : ∀ J : ℕ, J < (vs.map List.length).prod →
    (List.foldl kron [1] vs).getD J 0 =
      ∏ i in Finset.range vs.length,
        (vs.getD i []).getD (digitAt (vs.map List.length) i J) 0 := by
  induction vs using List.reverseRecOn with
  | nil =>
    intro J hJ
    simp only [List.map_nil, List.prod_nil, Nat.lt_one_iff] at hJ
    subst hJ
    simp
  | append_singleton l v ih =>
    intro J hJ
    have hprod : ((l ++ [v]).map List.length).prod = (l.map List.length).prod * v.length := by
      rw [List.map_append, List.prod_append]; simp
    have hJ' : J < (l.map List.length).prod * v.length := by rw [← hprod]; exact hJ
    have hv : 0 < v.length := by
      rcases Nat.eq_zero_or_pos v.length with h | h
      · rw [h, Nat.mul_zero] at hJ'; exact absurd hJ' (Nat.not_lt_zero J)
      · exact h
    have hJd : J / v.length < (l.map List.length).prod := by
      apply Nat.div_lt_of_lt_mul
      rw [Nat.mul_comm]
      exact hJ'
    rw [List.foldl_append, List.foldl_cons, List.foldl_nil]
    rw [kron_getD _ _ J (by rw [foldl_kron_length]; exact hJ')]
    rw [ih (J / v.length) hJd]
    rw [List.length_append, List.length_cons, List.length_nil]
    rw [Finset.prod_range_succ]
    congr 1
    · apply Finset.prod_congr rfl
      intro i hi
      have hil : i < l.length := Finset.mem_range.mp hi
      have hd : digitAt ((l ++ [v]).map List.length) i J =
          digitAt (l.map List.length) i (J / v.length) := by
        unfold digitAt
        rw [List.map_append]
        rw [List.drop_append_of_le_length (by simpa using hil)]
        rw [List.getD_append _ _ _ _ (by simpa using hil)]
        rw [List.prod_append]
        simp only [List.map_cons, List.map_nil, List.prod_cons, List.prod_nil, Nat.mul_one]
        rw [Nat.div_div_eq_div_mul, Nat.mul_comm v.length _]
      rw [hd, List.getD_append _ _ _ _ hil]
    · have hd : digitAt ((l ++ [v]).map List.length) l.length J = J % v.length := by
        unfold digitAt
        rw [List.map_append]
        rw [List.drop_eq_nil_of_le (by simp), List.prod_nil, Nat.div_one]
        rw [List.getD_append_right _ _ _ _ (by simp)]
        simp
      rw [hd, List.getD_append_right _ _ _ _ (le_refl l.length), Nat.sub_self,
        List.getD_cons_zero]

/-- C9 (amended): `computeKnotAverages` produces a matrix with `numVariables`
rows and `numBasisFunctions` columns whose entry `(i, J)` is the mean of the
`degree_i` knots at positions `j_i+1 … j_i+degree_i` of dimension `i`'s knot
vector, where `j_i` is digit `i` of the mixed-radix decomposition of `J`
over the per-dimension basis-function counts. -/
theorem computeKnotAverages_rows_cols_entries (nv : ℕ) (degrees : List ℕ)
    (knots : List (List ℚ)) :
    (computeKnotAverages nv degrees knots).length = nv ∧
    (∀ i, i < nv → ((computeKnotAverages nv degrees knots).getD i []).length =
      (basisCounts nv degrees knots).prod) ∧
    (∀ i J, i < nv → J < (basisCounts nv degrees knots).prod →
      ((computeKnotAverages nv degrees knots).getD i []).getD J 0 =
        (∑ t in Finset.range (degrees.getD i 0),
          (knots.getD i []).getD (digitAt (basisCounts nv degrees knots) i J + 1 + t) 0) /
          (degrees.getD i 0 : ℚ)) := by
  have hlen : ∀ i : ℕ,
      (((List.range nv).map fun j =>
        if i = j then muVec (degrees.getD j 0) (knots.getD j [])
        else List.replicate ((knots.getD j []).length - (degrees.getD j 0 + 1)) (1 : ℚ)).map
          List.length) = basisCounts nv degrees knots := by
    intro i
    rw [List.map_map, basisCounts]
    apply List.map_congr_left
    intro j _
    by_cases hij : i = j
    · simp [hij, muVec]
    · simp [hij]
  have hrow : ∀ i, i < nv → (computeKnotAverages nv degrees knots).getD i [] =
      List.foldl kron [1] ((List.range nv).map fun j =>
        if i = j then muVec (degrees.getD j 0) (knots.getD j [])
        else List.replicate ((knots.getD j []).length - (degrees.getD j 0 + 1)) (1 : ℚ)) := by
    intro i hi
    rw [computeKnotAverages, getD_map_range _ _ _ _ hi]
  refine ⟨by simp [computeKnotAverages], ?_, ?_⟩
  · intro i hi
    rw [hrow i hi, foldl_kron_length, hlen]
  · intro i J hi hJ
    have hcpos : ∀ j, j < nv → 0 < (basisCounts nv degrees knots).getD j 1 := by
      intro j hj
      have hppos : 0 < (basisCounts nv degrees knots).prod := Nat.pos_of_ne_zero (by omega)
      have hmem : (basisCounts nv degrees knots).getD j 1 ∈ basisCounts nv degrees knots := by
        have hjlen : j < (basisCounts nv degrees knots).length := by
          simpa [basisCounts] using hj
        rw [List.getD_eq_getElem _ _ hjlen]
        exact List.getElem_mem hjlen
      rcases Nat.eq_zero_or_pos ((basisCounts nv degrees knots).getD j 1) with h0 | h0
      · exfalso
        have : (basisCounts nv degrees knots).prod = 0 :=
          List.prod_eq_zero (h0 ▸ hmem)
        omega
      · exact h0
    have hdig : ∀ j, j < nv →
        digitAt (basisCounts nv degrees knots) j J < (basisCounts nv degrees knots).getD j 1 := by
      intro j hj
      exact Nat.mod_lt _ (hcpos j hj)
    rw [hrow i hi]
    rw [foldl_kron_getD _ J (by rw [hlen]; exact hJ)]
    rw [hlen]
    rw [List.length_map, List.length_range]
    rw [Finset.prod_eq_single i ?hothers ?habsent]
    case hothers =>
      intro j hjr hji
      have hj : j < nv := Finset.mem_range.mp hjr
      rw [getD_map_range _ _ _ _ hj, if_neg (Ne.symm hji)]
      have hcnt : (knots.getD j []).length - (degrees.getD j 0 + 1) =
          (basisCounts nv degrees knots).getD j 1 := by
        rw [basisCounts, getD_map_range _ _ _ _ hj]
      have hdlt : digitAt (basisCounts nv degrees knots) j J <
          (List.replicate ((knots.getD j []).length - (degrees.getD j 0 + 1)) (1 : ℚ)).length := by
        rw [List.length_replicate, hcnt]
        exact hdig j hj
      rw [List.getD_eq_getElem _ _ hdlt, List.getElem_replicate]
    case habsent =>
      intro hni
      exact absurd (Finset.mem_range.mpr hi) hni
    · rw [getD_map_range _ _ _ _ hi, if_pos rfl]
      have hcnt : (knots.getD i []).length - (degrees.getD i 0 + 1) =
          (basisCounts nv degrees knots).getD i 1 := by
        rw [basisCounts, getD_map_range _ _ _ _ hi]
      have hdlt : digitAt (basisCounts nv degrees knots) i J <
          (knots.getD i []).length - (degrees.getD i 0 + 1) := by
        rw [hcnt]; exact hdig i hi
      rw [muVec, getD_map_range _ _ _ _ hdlt]

/-! ### C8 -/

/-- `allTokens` over a leading data line. -/
theorem allTokens_cons_data (toks : List Token) (rest : List Line) :
    allTokens (Line.data toks :: rest) = toks ++ allTokens rest := rfl

/-- `allTokens` ignores comment lines. -/
theorem allTokens_cons_comment (rest : List Line) :
    allTokens (Line.comment :: rest) = allTokens rest := rfl

/-- Every value produced by `readN` is a numeric token of the line. -/
theorem readN_tokens : ∀ (k : ℕ) (toks : List Token) (qs : List ℚ),
    readN k toks = .ok qs → ∀ q ∈ qs, Token.num q ∈ toks := by
  intro k
  induction k with
  | zero =>
    intro toks qs h q hq
    rw [readN] at h
    cases h
    simp at hq
  | succ k ih =>
    intro toks qs h q hq
    cases toks with
    | nil => rw [readN] at h; simp [checked_strtod] at h
    | cons t tl =>
      rw [readN] at h
      cases t with
      | bad => simp [checked_strtod] at h
      | num q0 =>
        simp only [List.head?_cons, checked_strtod, List.drop_succ_cons, List.drop_zero] at h
        cases hr : readN k tl with
        | error e => rw [hr] at h; cases h
        | ok qs' =>
          rw [hr] at h
          cases h
          rcases List.mem_cons.mp hq with rfl | hq'
          · exact List.mem_cons_self _ _
          · exact List.mem_cons_of_mem _ (ih tl qs' hr q hq')

/-- One step of the load state machine only adds knot and coefficient values
that occur as numeric tokens of the consumed line. -/
theorem stepData_tokens (m : Machine) (toks : List Token) (m1 : Machine) (S : List Token)
    (h : stepData m toks = .ok m1)
    (hkv : ∀ kv ∈ m.knotVectors, ∀ q ∈ kv, Token.num q ∈ S)
    (hrows : ∀ row ∈ m.rows, ∀ q ∈ row, Token.num q ∈ S)
    (hsub : ∀ t ∈ toks, t ∈ S) :
    (∀ kv ∈ m1.knotVectors, ∀ q ∈ kv, Token.num q ∈ S) ∧
    (∀ row ∈ m1.rows, ∀ q ∈ row, Token.num q ∈ S) := by
  rw [stepData] at h
  split_ifs at h
  · cases hz : checked_strtol toks.head? with
    | error e => rw [hz] at h; cases h
    | ok z => rw [hz] at h; cases h; exact ⟨hkv, hrows⟩
  · cases hz : checked_strtol toks.head? with
    | error e => rw [hz] at h; cases h
    | ok d =>
      rw [hz] at h
      cases hz2 : checked_strtol (toks.drop 1).head? with
      | error e => rw [hz2] at h; cases h
      | ok len => rw [hz2] at h; cases h; exact ⟨hkv, hrows⟩
  · cases hr : readN m.kvLen.toNat toks with
    | error e => rw [hr] at h; cases h
    | ok ks =>
      rw [hr] at h
      cases h
      refine ⟨?_, hrows⟩
      intro kv hkvmem q hq
      rcases List.mem_append.mp hkvmem with hold | hnew
      · exact hkv kv hold q hq
      · rw [List.mem_singleton] at hnew
        subst hnew
        exact hsub _ (readN_tokens _ _ _ hr q hq)
  · cases hz : checked_strtol toks.head? with
    | error e => rw [hz] at h; cases h
    | ok r =>
      rw [hz] at h
      cases hz2 : checked_strtol (toks.drop 1).head? with
      | error e => rw [hz2] at h; cases h
      | ok c =>
        rw [hz2] at h
        cases h
        refine ⟨hkv, ?_⟩
        intro row hrow
        simp at hrow
  · cases hr : readN m.cCols.toNat toks with
    | error e => rw [hr] at h; cases h
    | ok row =>
      rw [hr] at h
      cases h
      refine ⟨hkv, ?_⟩
      intro r hrmem q hq
      rcases List.mem_append.mp hrmem with hold | hnew
      · exact hrows r hold q hq
      · rw [List.mem_singleton] at hnew
        subst hnew
        exact hsub _ (readN_tokens _ _ _ hr q hq)
  · cases h; exact ⟨hkv, hrows⟩

/-- Over a whole run of the load loop, every stored knot and coefficient
value originates from a numeric token of the input. -/
theorem loadLines_tokens : ∀ (lines : List Line) (m m1 : Machine) (S : List Token),
    loadLines m lines = .ok m1 →
    (∀ kv ∈ m.knotVectors, ∀ q ∈ kv, Token.num q ∈ S) →
    (∀ row ∈ m.rows, ∀ q ∈ row, Token.num q ∈ S) →
    (∀ t ∈ allTokens lines, t ∈ S) →
    (∀ kv ∈ m1.knotVectors, ∀ q ∈ kv, Token.num q ∈ S) ∧
    (∀ row ∈ m1.rows, ∀ q ∈ row, Token.num q ∈ S) := by
  intro lines
  induction lines with
  | nil =>
    intro m m1 S h hkv hrows _
    rw [loadLines] at h
    cases h
    exact ⟨hkv, hrows⟩
  | cons l rest ih =>
    intro m m1 S h hkv hrows hsub
    cases l with
    | comment =>
      rw [loadLines] at h
      exact ih m m1 S h hkv hrows
        (fun t ht => hsub t (by rw [allTokens_cons_comment]; exact ht))
    | data toks =>
      rw [loadLines] at h
      cases hs : stepData m toks with
      | error e => rw [hs] at h; cases h
      | ok m2 =>
        rw [hs] at h
        dsimp only at h
        obtain ⟨hkv2, hrows2⟩ := stepData_tokens m toks m2 S hs hkv hrows
          (fun t ht => hsub t (by rw [allTokens_cons_data]; exact List.mem_append_left _ ht))
        by_cases hbr : m.st = 4 ∧ m2.cRows < m2.cRowIdx
        · rw [if_pos hbr] at h; cases h; exact ⟨hkv2, hrows2⟩
        · rw [if_neg hbr] at h
          exact ih m2 m1 S h hkv2 hrows2
            (fun t ht => hsub t (by rw [allTokens_cons_data]; exact List.mem_append_right _ ht))

/-- C8: the decoder is a strict state machine over the numeric tokens: the
checked conversions raise `invalid_argument` on a malformed token or a
missing token and `out_of_range` on an integer outside `[-2^31, 2^31-1]`
(never substituting a default), and whenever `load` succeeds, every knot
value and every coefficient entry of the decoded surface occurs literally as
a numeric token of the input. -/
theorem load_strict_parsing :
    (checked_strtod none = .error .invalidArgument) ∧
    (checked_strtod (some Token.bad) = .error .invalidArgument) ∧
    (∀ q, checked_strtod (some (Token.num q)) = .ok q) ∧
    (checked_strtol none = .error .invalidArgument) ∧
    (checked_strtol (some Token.bad) = .error .invalidArgument) ∧
    (∀ q, ((ratTrunc q < -(2 ^ 31) ∨ 2 ^ 31 - 1 < ratTrunc q) →
        checked_strtol (some (Token.num q)) = .error .outOfRange) ∧
      (-(2 ^ 31) ≤ ratTrunc q → ratTrunc q ≤ 2 ^ 31 - 1 →
        checked_strtol (some (Token.num q)) = .ok (ratTrunc q))) ∧
    (∀ (lines : List Line) (s : BSpline) (chk : Bool), load lines = .ok (s, chk) →
      (∀ kv ∈ s.knotVectors, ∀ q ∈ kv, Token.num q ∈ allTokens lines) ∧
      (∀ row ∈ s.coefficients, ∀ q ∈ row, Token.num q ∈ allTokens lines)) := by
  refine ⟨rfl, rfl, fun q => rfl, rfl, rfl, ?_, ?_⟩
  · intro q
    constructor
    · intro h
      rw [checked_strtol, if_pos h]
    · intro h1 h2
      rw [checked_strtol, if_neg (by omega)]
  · intro lines s chk h
    rw [load] at h
    cases hl : loadLines initMachine lines with
    | error e => rw [hl] at h; cases h
    | ok m =>
      rw [hl] at h
      cases h
      have := loadLines_tokens lines initMachine m (allTokens lines) hl
        (by intro kv hkv; simp [initMachine] at hkv)
        (by intro row hrow; simp [initMachine] at hrow)
        (fun t ht => ht)
      exact this

/-! ### C7 -/

/-- Reading back exactly the numeric tokens of a value list recovers it. -/
theorem readN_map_num (qs : List ℚ) : readN qs.length (qs.map Token.num) = .ok qs := by
  induction qs with
  | nil => rfl
  | cons q t ih =>
    rw [List.length_cons, List.map_cons, readN]
    simp only [List.head?_cons, checked_strtod, List.drop_succ_cons, List.drop_zero, ih]

/-- `strtol` truncation of a natural-number token is the number itself. -/
theorem ratTrunc_natCast (n : ℕ) : ratTrunc (n : ℚ) = n := by
  simp [ratTrunc]

/-- `checked_strtol` accepts an in-range natural-number token. -/
theorem checked_strtol_natCast (n : ℕ) (h : (n : ℤ) ≤ 2 ^ 31 - 1) :
    checked_strtol (some (Token.num (n : ℚ))) = .ok (n : ℤ) := by
  rw [checked_strtol, ratTrunc_natCast, if_neg (by omega)]

/-- Unsigned conversion of an in-range natural number is the identity. -/
theorem toUInt32_natCast (n : ℕ) (h : n < 2 ^ 32) : toUInt32 (n : ℤ) = n := by
  rw [toUInt32, Int.emod_eq_of_lt (Int.natCast_nonneg n) (by exact_mod_cast h)]
  exact Int.toNat_natCast n

/-- Running the load loop over the per-dimension blocks that `save` emits
consumes them in the state-1/state-2 cycle, accumulating exactly the saved
degrees and knot vectors and ending in state 3. -/
theorem loadLines_dimBlock :
    ∀ (ds : List (ℕ × List ℚ)) (m : Machine) (rest : List Line),
    m.st = 1 →
    ds ≠ [] →
    m.knotVectors.length + ds.length = m.nv →
    (∀ p ∈ ds, (p.1 : ℤ) ≤ 2 ^ 31 - 1 ∧ ((p.2.length : ℤ)) ≤ 2 ^ 31 - 1) →
    ∃ L : ℤ, loadLines m (dimBlock ds ++ rest) =
      loadLines
        { m with
          degrees := m.degrees ++ ds.map Prod.fst,
          knotVectors := m.knotVectors ++ ds.map Prod.snd,
          kvLen := L, st := 3 } rest := by
  intro ds
  induction ds with
  | nil => intro m rest _ hne _ _; exact absurd rfl hne
  | cons p ds ih =>
    intro m rest hst _hne hlen hbnd
    obtain ⟨hb1, hb2⟩ := hbnd p (List.mem_cons_self _ _)
    have hdb : dimBlock (p :: ds) ++ rest =
        Line.data [Token.num (p.1 : ℚ), Token.num (p.2.length : ℚ)] ::
        Line.data (p.2.map Token.num) :: (dimBlock ds ++ rest) := by
      simp [dimBlock]
    rw [hdb, loadLines]
    have hs1 : stepData m [Token.num (p.1 : ℚ), Token.num (p.2.length : ℚ)] =
        .ok { m with degrees := m.degrees ++ [p.1], kvLen := (p.2.length : ℤ), st := 2 } := by
      rw [stepData, if_neg (by omega), if_pos hst]
      simp only [List.head?_cons, List.drop_succ_cons, List.drop_zero]
      rw [checked_strtol_natCast p.1 hb1, checked_strtol_natCast p.2.length hb2]
      dsimp only
      rw [toUInt32_natCast p.1 (by omega)]
    rw [hs1]
    dsimp only
    rw [if_neg (by intro hc; omega)]
    rw [loadLines]
    have hs2 : stepData
        { m with degrees := m.degrees ++ [p.1], kvLen := (p.2.length : ℤ), st := 2 }
        (p.2.map Token.num) =
        .ok
          { m with
            degrees := m.degrees ++ [p.1],
            knotVectors := m.knotVectors ++ [p.2],
            kvLen := (p.2.length : ℤ),
            st := if m.nv ≤ (m.knotVectors ++ [p.2]).length then 3 else 1 } := by
      rw [stepData, if_neg (by simp), if_neg (by simp), if_pos (by simp)]
      rw [show ((p.2.length : ℤ)).toNat = p.2.length from Int.toNat_natCast _]
      rw [readN_map_num]
    rw [hs2]
    dsimp only
    rw [if_neg (by intro hc; omega)]
    cases ds with
    | nil =>
      have hst3 : (if m.nv ≤ (m.knotVectors ++ [p.2]).length then 3 else 1) = 3 := by
        simp only [List.length_cons, List.length_nil] at hlen
        rw [if_pos]
        rw [List.length_append, List.length_cons, List.length_nil]
        omega
      rw [hst3]
      refine ⟨(p.2.length : ℤ), ?_⟩
      simp [dimBlock]
    | cons p2 ds2 =>
      have hst1 : (if m.nv ≤ (m.knotVectors ++ [p.2]).length then 3 else 1) = 1 := by
        rw [if_neg]
        rw [List.length_append, List.length_cons, List.length_nil]
        simp only [List.length_cons] at hlen
        omega
      rw [hst1]
      obtain ⟨L, hL⟩ := ih
        { m with
          degrees := m.degrees ++ [p.1],
          knotVectors := m.knotVectors ++ [p.2],
          kvLen := (p.2.length : ℤ),
          st := 1 }
        rest rfl (by simp)
        (by
          simp only [List.length_append, List.length_cons, List.length_nil]
          simp only [List.length_cons] at hlen
          omega)
        (fun p' hp' => hbnd p' (List.mem_cons_of_mem _ hp'))
      refine ⟨L, ?_⟩
      rw [hL]
      congr 1
      simp

/-- Running the load loop over the coefficient block that `save` emits for a
1-row coefficient matrix: the comment, the dimension line and the single
row. -/
theorem loadLines_coeff_tail (m : Machine) (nrows : ℕ) (c : List ℚ)
    (hst : m.st = 3) (hnr : nrows = 1)
    (hrB : (nrows : ℤ) ≤ 2 ^ 31 - 1) (hcB : ((c.length : ℤ)) ≤ 2 ^ 31 - 1) :
    loadLines m
      (Line.comment :: Line.data [Token.num (nrows : ℚ), Token.num (c.length : ℚ)] ::
        [Line.data (c.map Token.num)]) =
      .ok
        { m with
          cRows := (nrows : ℤ), cCols := (c.length : ℤ),
          rows := [c], cRowIdx := 1, st := 4 } := by
  subst hnr
  rw [loadLines, loadLines]
  have hs3 : stepData m [Token.num ((1 : ℕ) : ℚ), Token.num (c.length : ℚ)] =
      .ok
        { m with
          cRows := ((1 : ℕ) : ℤ), cCols := (c.length : ℤ),
          rows := [], cRowIdx := 0, st := 4 } := by
    rw [stepData, if_neg (by omega), if_neg (by omega), if_neg (by omega), if_pos hst]
    simp only [List.head?_cons, List.drop_succ_cons, List.drop_zero]
    rw [checked_strtol_natCast 1 (by norm_num), checked_strtol_natCast c.length hcB]
  rw [hs3]
  dsimp only
  rw [if_neg (by intro hcon; omega)]
  rw [loadLines]
  have hs4 : stepData
      { m with
        cRows := ((1 : ℕ) : ℤ), cCols := (c.length : ℤ),
        rows := [], cRowIdx := 0, st := 4 } (c.map Token.num) =
      .ok
        { m with
          cRows := ((1 : ℕ) : ℤ), cCols := (c.length : ℤ),
          rows := [c], cRowIdx := 1, st := 4 } := by
    rw [stepData, if_neg (by simp), if_neg (by simp), if_neg (by simp), if_neg (by simp),
      if_pos (by simp)]
    rw [if_neg (by norm_num)]
    rw [show ((c.length : ℤ)).toNat = c.length from Int.toNat_natCast _]
    rw [readN_map_num]
    norm_num
  rw [hs4]
  dsimp only
  rw [if_neg (fun hcon => absurd hcon.2 (by norm_num))]
  rw [loadLines]

/-- C7: save followed by load reproduces the surface exactly in the
token-level model (the fixed 17-digit decimal format round-trips doubles
exactly): the decoded surface has the same variable count, degrees, knot
vectors and coefficient matrix, its knot averages are recomputed from the
knot vectors, and its value, Jacobian and Hessian agree with the original at
every point. -/
theorem save_load_roundtrip (s : BSpline)
    (hnv1 : 1 ≤ s.numVariables)
    (hnvB : (s.numVariables : ℤ) ≤ 2 ^ 31 - 1)
    (hdeg : s.degrees.length = s.numVariables)
    (hkv : s.knotVectors.length = s.numVariables)
    (hdegB : ∀ i, i < s.numVariables → (degOf s i : ℤ) ≤ 2 ^ 31 - 1)
    (hknB : ∀ i, i < s.numVariables → ((knotsOf s i).length : ℤ) ≤ 2 ^ 31 - 1)
    (hc1 : s.coefficients.length = 1)
    (_hcols1 : 1 ≤ matCols s.coefficients)
    (hcolsB : (matCols s.coefficients : ℤ) ≤ 2 ^ 31 - 1) :
    load (save s) = .ok
      ({ s with
         knotaverages := computeKnotAverages s.numVariables s.degrees s.knotVectors },
       true) ∧
    ∀ x : List ℚ,
      eval
          { s with
            knotaverages := computeKnotAverages s.numVariables s.degrees s.knotVectors } x =
        eval s x ∧
      evalJacobian
          { s with
            knotaverages := computeKnotAverages s.numVariables s.degrees s.knotVectors } x =
        evalJacobian s x ∧
      evalHessian
          { s with
            knotaverages := computeKnotAverages s.numVariables s.degrees s.knotVectors } x =
        evalHessian s x := by
  obtain ⟨he, hj, hh⟩ := eval_ext
    { s with knotaverages := computeKnotAverages s.numVariables s.degrees s.knotVectors } s
    rfl rfl rfl rfl
  refine ⟨?_, fun x => ⟨congrFun he x, congrFun hj x, congrFun hh x⟩⟩
  obtain ⟨c, hc⟩ := List.length_eq_one.mp hc1
  have hmc : matCols s.coefficients = c.length := by rw [hc]; rfl
  have hrows' : s.coefficients.map (fun row => Line.data (row.map Token.num)) =
      [Line.data (c.map Token.num)] := by rw [hc]; rfl
  have hsave : save s =
      Line.comment :: Line.comment :: Line.data [Token.num (s.numVariables : ℚ)] ::
      (dimBlock ((List.range s.numVariables).map fun i => (degOf s i, knotsOf s i)) ++
        (Line.comment ::
          Line.data [Token.num (s.coefficients.length : ℚ),
            Token.num (matCols s.coefficients : ℚ)] ::
          s.coefficients.map fun row => Line.data (row.map Token.num))) := by
    rw [save]
    simp only [List.cons_append, List.nil_append, List.append_assoc]
  rw [hmc, hc1, hrows'] at hsave
  rw [load, hsave]
  rw [loadLines, loadLines, loadLines]
  have hs0 : stepData initMachine [Token.num (s.numVariables : ℚ)] =
      .ok { initMachine with nv := s.numVariables, st := 1 } := by
    rw [stepData, if_pos (show initMachine.st = 0 from rfl)]
    simp only [List.head?_cons]
    rw [checked_strtol_natCast _ hnvB]
    dsimp only
    rw [toUInt32_natCast _ (by omega)]
  rw [hs0]
  dsimp only
  rw [if_neg (fun hcon => by simpa [initMachine] using hcon.1)]
  obtain ⟨L, hL⟩ := loadLines_dimBlock
    ((List.range s.numVariables).map fun i => (degOf s i, knotsOf s i))
    { initMachine with nv := s.numVariables, st := 1 }
    (Line.comment ::
      Line.data [Token.num ((1 : ℕ) : ℚ), Token.num (c.length : ℚ)] ::
      [Line.data (c.map Token.num)])
    rfl
    (by
      intro hnil
      have := congrArg List.length hnil
      simp at this
      omega)
    (by simp [initMachine])
    (by
      intro p hp
      obtain ⟨i, hi, rfl⟩ := List.mem_map.mp hp
      exact ⟨hdegB i (List.mem_range.mp hi), hknB i (List.mem_range.mp hi)⟩)
  rw [hL]
  rw [loadLines_coeff_tail _ 1 c rfl rfl (by norm_num) (by rw [← hmc]; exact hcolsB)]
  have hfst : (((List.range s.numVariables).map fun i =>
      (degOf s i, knotsOf s i)).map Prod.fst) = s.degrees := by
    rw [List.map_map]
    have h2 : (Prod.fst ∘ fun i => (degOf s i, knotsOf s i)) =
        fun i => s.degrees.getD i 0 := rfl
    rw [h2, ← hdeg, map_getD_range]
  have hsnd : (((List.range s.numVariables).map fun i =>
      (degOf s i, knotsOf s i)).map Prod.snd) = s.knotVectors := by
    rw [List.map_map]
    have h2 : (Prod.snd ∘ fun i => (degOf s i, knotsOf s i)) =
        fun i => s.knotVectors.getD i [] := rfl
    rw [h2, ← hkv, map_getD_range]
  simp only [loadBasisOp]
  rw [hfst, hsnd, ← hc]
  simp [initMachine]

/-! ### Concrete witnesses and counterexamples

The kernel evaluates the model on concrete rational inputs; the arithmetic
operations on `Rat` are restored to their default reducibility for that. -/

set_option allowUnsafeReducibility true

attribute [local semireducible] Rat.add Rat.mul Rat.sub Rat.div Rat.inv Rat.ofScientific

/-- Witness for C1 on the concrete surface `exS1`. -/
theorem eval_domain_gate_witness :
    [(2 : ℚ)].length = exS1.numVariables ∧
    eval exS1 [2] = .error .domainError ∧
    eval exS1 [1/2] = .ok (evalValue exS1 [1/2]) := by
  refine ⟨by decide, ?_, ?_⟩
  · exact ((eval_domain_gate exS1 [2] (by decide)).1 ⟨0, by decide, Or.inr (by decide)⟩).1
  · exact (eval_domain_gate exS1 [1/2] (by decide)).2 (by decide)

/-- Witness for C3: re-inserting the boundary knot 0 of `exS1` (already of
multiplicity 2 = degree+1) is rejected with the state unchanged. -/
theorem insertKnots_multiplicity_reject_witness :
    degOf exS1 0 + 1 < knotMultiplicity exS1 0 0 + 1 ∧
    insertKnots exInsert1 exS1 0 0 1 = ⟨false, exS1, false⟩ :=
  ⟨by decide, insertKnots_multiplicity_reject exInsert1 exS1 0 0 1 (by decide)⟩

/-- Witness for C10: too-short lower bounds on the two-variable surface. -/
theorem reduceDomain_size_mismatch_witness :
    ¬ ([(0 : ℚ)].length = exS2.numVariables ∧ [(1 : ℚ), 1].length = exS2.numVariables) ∧
    reduceDomain exInsertDim0 exNoReduce exNoRefine exS2 [0] [1, 1] true true =
      (.ok false, exS2) :=
  ⟨by decide,
   reduceDomain_size_mismatch exInsertDim0 exNoReduce exNoRefine exS2 [0] [1, 1] true true
     (by decide)⟩

/-- Counterexample for C5 as stated: with one equation (dense-only path), a
successful would-be sparse solve and a failing dense solve, the solve error
is raised although it is not the case that both the sparse and the dense
solves fail. -/
theorem computeControlPoints_error_without_sparse_failure :
    ¬ ((computeControlPointsSolve 1 true true false false).raised = true ↔
        ((true && true) = false ∧ (false && false) = false)) := by decide

/-- Counterexample for C6 as stated: `insertKnots` performs a successful
mutation of the control-point data without invoking `checkControlPoints`,
so the invariant is not checked on every mutation. -/
theorem insertKnots_mutation_unchecked :
    (insertKnots exInsert1 exS1 (1/2) 0 1).ok = true ∧
    (insertKnots exInsert1 exS1 (1/2) 0 1).state ≠ exS1 ∧
    (insertKnots exInsert1 exS1 (1/2) 0 1).checked = false := by decide

/-- Witness for C6 (amended) on the concrete surface `exS1`. -/
theorem controlPoint_invariant_maintenance_witness :
    1 ≤ exS1.numVariables ∧ checkControlPoints exS1 ∧
    checkControlPoints (insertKnots exInsert1 exS1 (1/2) 0 1).state :=
  ⟨by decide, by decide,
   controlPoint_invariant_maintenance.1 exInsert1 exS1 (1/2) 0 1 (by decide) (by decide)⟩

/-- Counterexample for C4 as stated: `reduceDomain` on the bilinear surface
`exS2` with a regularization that succeeds in dimension 0 (with the genuine
Boehm insertion data) and fails in dimension 1 raises the structural error
only after the dimension-0 insertion has mutated the surface, so the failed
call does not leave the pre-attempt state. -/
theorem reduceDomain_mutates_before_failure :
    (reduceDomain exInsertDim0 exNoReduce exNoRefine exS2 [1/4, 1/4] [1, 1] true false).1 =
      .error .regularize ∧
    (reduceDomain exInsertDim0 exNoReduce exNoRefine exS2 [1/4, 1/4] [1, 1] true false).2 ≠
      exS2 := by decide

/-- Witness for C4 (amended): a regularization that fails before any
insertion aborts `reduceDomain` with the structural error. -/
theorem reduceDomain_failing_step_raises_witness :
    ([(1 : ℚ)/4, 1/4].length = exS2.numVariables ∧
      [(1 : ℚ), 1].length = exS2.numVariables) ∧
    ¬ emptyDomainCond exS2 [1/4, 1/4] [1, 1] ∧
    strictSubsetCond exS2 [1/4, 1/4] [1, 1] ∧
    reduceDomain exNoInsert exNoReduce exNoRefine exS2 [1/4, 1/4] [1, 1] true false =
      (.error .regularize, exS2) := by
  refine ⟨⟨by decide, by decide⟩, by decide, by decide, ?_⟩
  have h := (reduceDomain_failing_step_raises exNoInsert exNoReduce exNoRefine exS2
    [1/4, 1/4] [1, 1] true false ⟨by decide, by decide⟩ (by decide) (by decide)).1 (by decide)
  rw [h]
  decide

/-- Counterexample for C9 as stated: after `setControlPoints` installs the
knot-average row `[1/4, 1]` (legal for the source), a knot insertion changes
the knot vectors but updates `knotaverages` by the insertion matrix instead
of recomputing it, and the result differs from the recomputed knot-average
matrix of the new knot vectors. -/
theorem knotaverages_not_recomputed_on_insert :
    (setControlPoints exS9base [[1/4, 1], [5, 7]]).state.knotaverages = [[1/4, 1]] ∧
    (insertKnots exInsert1 (setControlPoints exS9base [[1/4, 1], [5, 7]]).state
        (1/2) 0 1).ok = true ∧
    (insertKnots exInsert1 (setControlPoints exS9base [[1/4, 1], [5, 7]]).state
        (1/2) 0 1).state.knotVectors = [[0, 0, 1/2, 1, 1]] ∧
    (insertKnots exInsert1 (setControlPoints exS9base [[1/4, 1], [5, 7]]).state
        (1/2) 0 1).state.knotaverages ≠
      computeKnotAverages 1 [1] [[0, 0, 1/2, 1, 1]] := by decide

/-- Witness for C2 on the degree-0 surface `exS0`: inserting the knot 1/2
leaves the evaluated function unchanged on the whole domain. -/
theorem insertKnots_preserves_eval_witness :
    (insertKnots exInsert0 exS0 (1/2) 0 1).ok = true ∧
    eval (insertKnots exInsert0 exS0 (1/2) 0 1).state [1/3] = eval exS0 [1/3] := by
  have hsupp : insideSupport { exS0 with knotVectors := [[0, 1/2, 1]] } =
      insideSupport exS0 := by
    funext x
    apply propext
    constructor <;> intro h i hi <;> obtain rfl : i = 0 := Nat.lt_one_iff.mp hi <;>
      simpa [insideSupport, knotsOf, exS0] using h 0 (by norm_num [exS0])
  have hprop : ∀ x, insideSupport exS0 x → ∀ j, j < numBasisFunctions exS0 →
      tensorVal exS0 j x =
        ∑ i in Finset.range
            (numBasisFunctions { exS0 with knotVectors := [[0, 1/2, 1]] }),
          ((([[1], [1]] : List (List ℚ))).getD i []).getD j 0 *
            tensorVal { exS0 with knotVectors := [[0, 1/2, 1]] } i x := by
    intro x hx j hj
    obtain rfl : j = 0 := Nat.lt_one_iff.mp hj
    have hy := hx 0 (by norm_num [exS0])
    have key := hat_decomp0 (x.getD 0 0) hy.1 hy.2
    simpa [tensorVal, exS0, counts, numBasisFunctions, numBasisFunctions1, knotsOf, degOf,
      digitAt, show List.range 1 = [0] from rfl, Finset.prod_range_one, Finset.sum_range_succ,
      Finset.sum_range_one] using key
  have h := insertKnots_preserves_eval exInsert0 exS0 (1/2) 0 1 [[0, 1/2, 1]] [[1], [1]]
    rfl (by decide) (by decide) (by decide) (by decide) (by decide) hsupp hprop
  exact ⟨h.1, h.2 [1/3] (by decide)⟩

/-- Witness for C9 (amended): the entry formula at row 1, column 2 of the
bilinear knot-average matrix. -/
theorem computeKnotAverages_rows_cols_entries_witness :
    (1 < 2 ∧ 2 < (basisCounts 2 [1, 1] [[0, 0, 1, 1], [0, 0, 1, 1]]).prod) ∧
    ((computeKnotAverages 2 [1, 1] [[0, 0, 1, 1], [0, 0, 1, 1]]).getD 1 []).getD 2 0 =
      (∑ t in Finset.range (([1, 1] : List ℕ).getD 1 0),
        (([[0, 0, 1, 1], [0, 0, 1, 1]] : List (List ℚ)).getD 1 []).getD
          (digitAt (basisCounts 2 [1, 1] [[0, 0, 1, 1], [0, 0, 1, 1]]) 1 2 + 1 + t) 0) /
        (([1, 1] : List ℕ).getD 1 0 : ℚ) := by
  refine ⟨⟨by decide, by decide⟩, ?_⟩
  exact (computeKnotAverages_rows_cols_entries 2 [1, 1] [[0, 0, 1, 1], [0, 0, 1, 1]]).2.2
    1 2 (by decide) (by decide)

/-- Witness for C7 on the concrete surface `exS1`. -/
theorem save_load_roundtrip_witness :
    (1 ≤ exS1.numVariables ∧ exS1.degrees.length = exS1.numVariables ∧
      exS1.knotVectors.length = exS1.numVariables ∧ exS1.coefficients.length = 1) ∧
    load (save exS1) = .ok
      ({ exS1 with
         knotaverages :=
           computeKnotAverages exS1.numVariables exS1.degrees exS1.knotVectors }, true) ∧
    eval
        { exS1 with
          knotaverages :=
            computeKnotAverages exS1.numVariables exS1.degrees exS1.knotVectors } [1/2] =
      eval exS1 [1/2] := by
  have h := save_load_roundtrip exS1 (by decide) (by decide) (by decide) (by decide)
    (by decide) (by decide) (by decide) (by decide) (by decide)
  exact ⟨⟨by decide, by decide, by decide, by decide⟩, h.1, (h.2 [1/2]).1⟩

/-- Witness for C8: a successful decode of a saved file stores only values
that occur as numeric tokens of the input. -/
theorem load_strict_parsing_witness :
    load (save exS1) = .ok
      ({ exS1 with
         knotaverages :=
           computeKnotAverages exS1.numVariables exS1.degrees exS1.knotVectors }, true) ∧
    Token.num 5 ∈ allTokens (save exS1) := by
  refine ⟨by decide, ?_⟩
  have h := (load_strict_parsing.2.2.2.2.2.2 (save exS1)
    { exS1 with
      knotaverages := computeKnotAverages exS1.numVariables exS1.degrees exS1.knotVectors }
    true (by decide)).2
  exact h [3, 5] (by decide) 5 (by decide)

end MultivariateSplines
